import Mathlib

/-!
Verification of the drill-asses repository.

This file gives a shallow embedding of the string parsing, HTTP retry,
extraction and concurrent-dispatch logic of `src/app.py` and
`src/pages/drilldown.py`, and proves theorems about the properties the
specification states.  Strings are modelled as lists of characters,
machine interaction (HTTP responses and raised exceptions) as explicit
event sequences, and the `as_completed` collection loop as a fold over
the list of per-unit results in completion order.
-/

/-- Characters removed by Python's `str.strip()` (ASCII whitespace). -/
def pyIsSpace (c : Char) : Bool :=
  c = ' ' || c = '\t' || c = '\n' || c = '\r' || c = '\x0b' || c = '\x0c'

/-- Strings are modelled as lists of characters. -/
abbrev Str := List Char

/-- Leading-whitespace removal, the left half of Python `str.strip()`. -/
def stripL (s : Str) : Str := s.dropWhile pyIsSpace

/-- Trailing-whitespace removal, the right half of Python `str.strip()`. -/
def stripR (s : Str) : Str := (s.reverse.dropWhile pyIsSpace).reverse

/-- Python `str.strip()`. -/
def pyStrip (s : Str) : Str := stripR (stripL s)

/-- Python `str.lower()` (ASCII as used by this repository). -/
def pyLower (s : Str) : Str := s.map Char.toLower

/-- Does the second string start with the first? -/
def startsWith : Str → Str → Bool
  | [], _ => true
  | _ :: _, [] => false
  | p :: ps, c :: cs => p == c && startsWith ps cs

/-- Python's substring test, as in the expression `sep in s`. -/
def containsSub (sep : Str) : Str → Bool
  | [] => startsWith sep []
  | c :: rest => startsWith sep (c :: rest) || containsSub sep rest

/-- Python `s.split(sep, 1)` for an occurring separator: the parts strictly
before and after the first occurrence of `sep`; `none` when `sep` does not
occur in `s`. -/
def splitOnFirst (sep : Str) : Str → Option (Str × Str)
  | [] => none
  | c :: rest =>
    if startsWith sep (c :: rest) then some ([], (c :: rest).drop sep.length)
    else
      match splitOnFirst sep rest with
      | some (a, b) => some (c :: a, b)
      | none => none

/-- The separator `" - "` from `parse_folder_name` in `src/app.py`. -/
def sepDash : Str := [' ', '-', ' ']

/-- The literal `"N/A"`. -/
def naStr : Str := ['N', '/', 'A']

/-- `parse_folder_name` from `src/app.py` (lines 173-182).  The Python
`if sep in clean_name: clean_name.split(sep, 1)` idiom is rendered as a
match on `splitOnFirst`, which returns `some` exactly when the separator
occurs in the string. -/
def parse_folder_name (folder_name : Str) : Str × Str :=
  let clean_name := pyStrip folder_name
  match splitOnFirst sepDash clean_name with
  | some (a, b) => (pyStrip a, pyStrip b)
  | none =>
    match splitOnFirst ['_'] clean_name with
    | some (a, b) => (pyStrip a, pyStrip b)
    | none => (clean_name, naStr)

example : parse_folder_name ("Google - 12345".data) = ("Google".data, "12345".data) := by decide
example : parse_folder_name ("ACME_42".data) = ("ACME".data, "42".data) := by decide
example : parse_folder_name ("  Plain Co  ".data) = ("Plain Co".data, naStr) := by decide
example : parse_folder_name ("A - B - C".data) = ("A".data, "B - C".data) := by decide

/-!
The network model.  One call of `requests.post` either returns a response
with a status code and a body, or raises.  A body is already rendered as
the value the surrounding Python code will extract from it, so eventual
JSON-parse failures are part of the event.
-/

/-- Outcome of one `requests.post` call. -/
inductive NetEvent (β : Type) where
  | response (code : Nat) (body : β)
  | exception
deriving DecidableEq

/-- Add one issued request to a (result, request-count) pair. -/
def bump {α : Type} (r : α × Nat) : α × Nat := (r.1, r.2 + 1)

/-- One item of the model's `"questions"` list in the zip flow; each key is
optional, and its value is passed through without validation. -/
structure QItem where
  category : Option Str
  question_text : Option Str
  difficulty : Option Str
  has_image : Option Str
deriving DecidableEq

/-- Body of a 200 response in the zip flow: `some qs` when
`json.loads(response.json()['choices'][0]['message']['content'])['questions']`
evaluates to the list `qs`, and `none` when that evaluation raises (the
inner `except: return []`). -/
abbrev QBody := Option (List QItem)

/-- The `for attempt in range(3)` retry loop of `extract_questions` in
`src/app.py` (lines 161-171), returning the extracted list together with
the number of HTTP requests issued.  On status 200 the parsed questions
(or `[]` on a parse failure) are returned; on 429 the code sleeps and
retries; on any other status it returns `[]` at once; a raised exception
sleeps and retries. -/
def extract_loop (net : Nat → NetEvent QBody) : Nat → Nat → List QItem × Nat
  | _, 0 => ([], 0)
  | i, fuel + 1 =>
    match net i with
    | .exception => bump (extract_loop net (i + 1) fuel)
    | .response code body =>
      if code = 200 then
        match body with
        | some qs => (qs, 1)
        | none => ([], 1)
      else if code = 429 then bump (extract_loop net (i + 1) fuel)
      else ([], 1)

/-- `extract_questions` from `src/app.py` (lines 123-171): the guard
`if not raw_text or len(raw_text.strip()) < 5: return []` short-circuits
before any request; otherwise the three-attempt retry loop runs.  The
prompt text does not influence control flow and is omitted. -/
def extract_questions (raw_text : Str) (net : Nat → NetEvent QBody) :
    List QItem × Nat :=
  if raw_text = [] ∨ (pyStrip raw_text).length < 5 then ([], 0)
  else extract_loop net 0 3

/-- One item of the model's `"extracted_data"` list in the CSV flow. -/
structure DrillItem where
  round : Option Str
  question : Option Str
  item_type : Option Str
  tech_stack : Option Str
  difficulty : Option Str
deriving DecidableEq

/-- The value of the content string returned by `analyze_with_mistral`,
rendered as what `json.loads(response).get("extracted_data", [])` in
`process_drilldown_row` will produce from it: `some items` for a parseable
content, `none` when `json.loads` raises. -/
abbrev DrillContent := Option (List DrillItem)

/-- Body of a 200 response in the CSV flow: `some c` when
`resp.json().get("choices", [{}])[0].get("message", {}).get("content", "{}")`
evaluates to a content string of value `c`, and `none` when that chain
raises (caught by the loop's `except`, which sleeps and retries). -/
abbrev DrillBody := Option DrillContent

/-- The `for attempt in range(3)` retry loop of `analyze_with_mistral` in
`src/pages/drilldown.py` (lines 63-74), returning the content value and
the number of HTTP requests issued.  On status 200 the content is
returned; on 429 the code sleeps `3 + uniform(0, 2)` seconds and retries;
on any other status it sleeps 1 second and also retries; a raised
exception sleeps 1 second and retries.  When the three attempts are
exhausted, `json.dumps({"extracted_data": []})` is returned, whose parsed
value is `some []`. -/
def analyze_loop (net : Nat → NetEvent DrillBody) : Nat → Nat → DrillContent × Nat
  | _, 0 => (some [], 0)
  | i, fuel + 1 =>
    match net i with
    | .exception => bump (analyze_loop net (i + 1) fuel)
    | .response code body =>
      if code = 200 then
        match body with
        | some c => (c, 1)
        | none => bump (analyze_loop net (i + 1) fuel)
      else bump (analyze_loop net (i + 1) fuel)

/-- `analyze_with_mistral` from `src/pages/drilldown.py` (lines 49-74):
with an empty API key the empty sentinel is returned without any request;
otherwise the three-attempt loop runs. -/
def analyze_with_mistral (api_key : Str) (net : Nat → NetEvent DrillBody) :
    DrillContent × Nat :=
  if api_key.isEmpty then (some [], 0) else analyze_loop net 0 3

/-- One input row of the CSV flow; `none` models a column that is absent
or `NaN` (so that `pd.notna` is false, or `.get` falls back to its
default), `some s` a present string value. -/
structure DrillRow where
  interview_date : Option Str
  user_id : Option Str
  job_id : Option Str
  assessment_questions : Option Str
  technical_round : Option Str
  technical2_round : Option Str
  hr_questions : Option Str
  managerial_round : Option Str
  ceo_round : Option Str
deriving DecidableEq

/-- One output row of the CSV flow. -/
structure OutRow where
  date_of_gathering : Str
  row_user_id : Str
  row_job_id : Str
  interview_round : Str
  question_text : Str
  question_type : Str
  tech_stack : Str
  difficulty_level : Str
  curriculum_coverage : Str
deriving DecidableEq

/-- One entry of the `rounds_data` dict: present when the column is. -/
def optRound (name : Str) (v : Option Str) : List (Str × Str) :=
  match v with
  | some t => [(name, t)]
  | none => []

/-- The `rounds_data` dict built in `process_drilldown_row`
(`src/pages/drilldown.py` lines 83-103), in insertion order. -/
def rounds_data (r : DrillRow) : List (Str × Str) :=
  optRound ("Assessment".data) r.assessment_questions ++
  optRound ("Technical Round 1".data) r.technical_round ++
  optRound ("Technical Round 2".data) r.technical2_round ++
  optRound ("HR Round".data) r.hr_questions ++
  optRound ("Managerial Round".data) r.managerial_round ++
  optRound ("CEO/Director Round".data) r.ceo_round

/-- The rejected keywords of the `clean_rounds` filter. -/
def null_words : List Str :=
  ["nan".data, "no".data, "yes".data, "na".data, "none".data, "null".data]

/-- The `clean_rounds` predicate: `len(v) > 3 and v.lower() not in [...]`. -/
def keep_round (t : Str) : Bool :=
  3 < t.length && !(null_words.contains (pyLower t))

/-- The `clean_rounds` dict (`src/pages/drilldown.py` line 106). -/
def clean_rounds (r : DrillRow) : List (Str × Str) :=
  (rounds_data r).filter (fun p => keep_round p.2)

/-- Construction of one output row from one extracted item
(`src/pages/drilldown.py` lines 144-154): every missing key falls back to
a fixed placeholder, present values pass through unvalidated, and
`"Curriculum Coverage"` is the constant `"Covered"`. -/
def build_drill_row (date_val uid jid : Str) (item : DrillItem) : OutRow where
  date_of_gathering := date_val
  row_user_id := uid
  row_job_id := jid
  interview_round := item.round.getD ("Unknown".data)
  question_text := item.question.getD []
  question_type := item.item_type.getD ("General".data)
  tech_stack := item.tech_stack.getD ("General".data)
  difficulty_level := item.difficulty.getD ("Medium".data)
  curriculum_coverage := "Covered".data

/-- `process_drilldown_row` from `src/pages/drilldown.py` (lines 76-157),
returning the produced rows and the number of HTTP requests issued.  When
`clean_rounds` is empty the function returns `[]` before building a
prompt; otherwise `analyze_with_mistral` is called and its content parsed,
a parse failure being caught by the surrounding `except: return []`. -/
def process_drilldown_row (row : DrillRow) (api_key : Str)
    (net : Nat → NetEvent DrillBody) : List OutRow × Nat :=
  let date_val := row.interview_date.getD naStr
  let uid := row.user_id.getD naStr
  let jid := row.job_id.getD naStr
  if (clean_rounds row).isEmpty then ([], 0)
  else
    let r := analyze_with_mistral api_key net
    match r.1 with
    | some items => (items.map (build_drill_row date_val uid jid), r.2)
    | none => ([], r.2)

/-- `MistralClientAssessment.get_api_key` from `src/app.py` (lines 68-70):
the credential is chosen by the current wall-clock second modulo the
number of keys, `self.api_keys[int(time.time()) % len(self.api_keys)]`,
with `""` when no key is configured. -/
def get_api_key (api_keys : List Str) (now : Nat) : Str :=
  if h : api_keys = [] then []
  else api_keys.get ⟨now % api_keys.length, Nat.mod_lt _ (List.length_pos.mpr h)⟩

/-- The submission loop of the CSV dispatcher
(`src/pages/drilldown.py` lines 187-190): row `i` is submitted with
`MISTRAL_API_KEYS[i % len(MISTRAL_API_KEYS)]`. -/
def submissions_go (keys : List Str) (hk : keys ≠ []) :
    Nat → List DrillRow → List (DrillRow × Str)
  | _, [] => []
  | i, r :: rest =>
    (r, keys.get ⟨i % keys.length, Nat.mod_lt _ (List.length_pos.mpr hk)⟩) ::
      submissions_go keys hk (i + 1) rest

/-- The full submission list of the CSV dispatcher. -/
def drilldown_submissions (keys : List Str) (hk : keys ≠ [])
    (rows : List DrillRow) : List (DrillRow × Str) :=
  submissions_go keys hk 0 rows

/-- State of the `as_completed` collection loop
(`src/pages/drilldown.py` lines 192-199). -/
structure DispatchState where
  all_results : List OutRow
  completed_count : Nat
deriving DecidableEq

/-- One iteration of the collection loop: `if data:
all_results.extend(data)` followed by `completed_count += 1`. -/
def dispatch_step (s : DispatchState) (data : List OutRow) : DispatchState where
  all_results := if data.isEmpty then s.all_results else s.all_results ++ data
  completed_count := s.completed_count + 1

/-- The collection loop run over the per-unit results in completion
order. -/
def run_dispatch (ds : List (List OutRow)) : DispatchState :=
  ds.foldl dispatch_step ⟨[], 0⟩

/-- The sequence of `completed_count` values reported to the progress
widgets, one report per completed unit. -/
def dispatch_reports : DispatchState → List (List OutRow) → List Nat
  | _, [] => []
  | s, d :: rest =>
    (dispatch_step s d).completed_count :: dispatch_reports (dispatch_step s d) rest

/-- The per-unit result of one submitted future: the rows produced by
`process_drilldown_row` for that row and key under that network
behaviour. -/
def unit_result (u : DrillRow × Str × (Nat → NetEvent DrillBody)) : List OutRow :=
  (process_drilldown_row u.1 u.2.1 u.2.2).1

/-- Row construction of the zip flow (`src/app.py` lines 281-295). -/
structure ZipRow where
  company_name : Str
  zip_job_id : Str
  folder_source : Str
  tech_stack : Str
  question : Str
  difficulty : Str
  image_reference : Str
  source_file : Str
deriving DecidableEq

/-- Construction of one `final_data` entry from one extracted question in
the zip flow (`src/app.py` lines 283-295): missing keys fall back to
fixed placeholders and `Image Reference` is derived from
`has_image.lower() in ["yes", "true"]`. -/
def build_zip_row (company jid folder filename : Str) (q : QItem) : ZipRow :=
  let has_img := q.has_image.getD ("No".data)
  let img_ref :=
    if pyLower has_img = "yes".data ∨ pyLower has_img = "true".data then
      "See: ".data ++ filename
    else []
  { company_name := company
    zip_job_id := jid
    folder_source := folder
    tech_stack := q.category.getD ("Uncategorized".data)
    question := q.question_text.getD []
    difficulty := q.difficulty.getD ("Unknown".data)
    image_reference := img_ref
    source_file := filename }

/-- Status test on a network event, used to state the retry claims. -/
def isStatus (c : Nat) {β : Type} : NetEvent β → Bool
  | .response c' _ => c' == c
  | .exception => false

/-! Facts about `startsWith`, `containsSub` and `splitOnFirst`. -/

theorem startsWith_self_append (s t : Str) : startsWith s (s ++ t) = true := by
  induction s with
  | nil => rfl
  | cons c cs ih => simp [startsWith, ih]

theorem startsWith_append_left (sep A B : Str) (hlen : sep.length ≤ A.length)
    (h : startsWith sep (A ++ B) = true) : startsWith sep A = true := by
  induction sep generalizing A with
  | nil => rfl
  | cons p ps ih =>
    cases A with
    | nil => simp at hlen
    | cons c cs =>
      simp only [List.cons_append, startsWith, Bool.and_eq_true] at h ⊢
      exact ⟨h.1, ih cs (by simpa using hlen) h.2⟩

theorem startsWith_append_weaken (sep u B : Str) (h : startsWith sep u = true) :
    startsWith sep (u ++ B) = true := by
  induction sep generalizing u with
  | nil => rfl
  | cons p ps ih =>
    cases u with
    | nil => simp [startsWith] at h
    | cons c cs =>
      simp only [startsWith, Bool.and_eq_true, List.cons_append] at h ⊢
      exact ⟨h.1, ih cs h.2⟩

theorem containsSub_of_startsWith_drop (sep P : Str) (i : Nat)
    (h : startsWith sep (P.drop i) = true) : containsSub sep P = true := by
  induction P generalizing i with
  | nil => simpa [containsSub] using h
  | cons c rest ih =>
    cases i with
    | zero =>
      simp only [List.drop_zero] at h
      simp [containsSub, h]
    | succ j =>
      simp only [List.drop_succ_cons] at h
      simp [containsSub, ih j h]

theorem containsSub_nil_left (b : Str) : containsSub [] b = true := by
  cases b <;> rfl

theorem containsSub_append_r (sep a t : Str) (h : containsSub sep t = true) :
    containsSub sep (a ++ t) = true := by
  induction a with
  | nil => simpa using h
  | cons c cs ih => simp [containsSub, ih]

theorem containsSub_append_l (sep t b : Str) (h : containsSub sep t = true) :
    containsSub sep (t ++ b) = true := by
  induction t with
  | nil =>
    have hsep : sep = [] := by
      cases sep with
      | nil => rfl
      | cons p ps => simp [containsSub, startsWith] at h
    subst hsep
    exact containsSub_nil_left b
  | cons c cs ih =>
    simp only [containsSub, Bool.or_eq_true] at h
    rcases h with h | h
    · have h1 := startsWith_append_weaken sep (c :: cs) b h
      simp only [containsSub, Bool.or_eq_true]
      left
      simpa using h1
    · simp [containsSub, ih h]

theorem splitOnFirst_eq_none (sep s : Str) (h : containsSub sep s = false) :
    splitOnFirst sep s = none := by
  induction s with
  | nil => rfl
  | cons c rest ih =>
    simp only [containsSub, Bool.or_eq_false_iff] at h
    simp [splitOnFirst, h.1, ih h.2]

theorem no_early_occurrence (sep x y : Str)
    (h : containsSub sep (x ++ sep.dropLast) = false) :
    ∀ i, i < x.length → startsWith sep ((x ++ (sep ++ y)).drop i) = false := by
  cases sep with
  | nil =>
    intro i hi
    rw [List.dropLast_nil, List.append_nil, containsSub_nil_left x] at h
    simp at h
  | cons p ps =>
    intro i hi
    by_contra hcon
    simp only [Bool.not_eq_false] at hcon
    have hne : p :: ps ≠ ([] : Str) := by simp
    have hsplit : x ++ ((p :: ps) ++ y) =
        (x ++ (p :: ps).dropLast) ++ ((p :: ps).getLast hne :: y) := by
      conv_lhs => rw [← List.dropLast_append_getLast hne]
      simp
    rw [hsplit] at hcon
    have hiP : i ≤ (x ++ (p :: ps).dropLast).length := by
      simp only [List.length_append, List.length_dropLast]
      omega
    rw [List.drop_append_of_le_length hiP] at hcon
    have hlen : (p :: ps).length ≤ ((x ++ (p :: ps).dropLast).drop i).length := by
      simp only [List.length_drop, List.length_append, List.length_dropLast,
        List.length_cons]
      omega
    have h1 := startsWith_append_left _ _ _ hlen hcon
    have h2 := containsSub_of_startsWith_drop _ _ _ h1
    rw [h2] at h
    simp at h

theorem splitOnFirst_exact (sep : Str) (hsep : sep ≠ []) :
    ∀ x y : Str,
      (∀ i, i < x.length → startsWith sep ((x ++ (sep ++ y)).drop i) = false) →
      splitOnFirst sep (x ++ (sep ++ y)) = some (x, y) := by
  intro x
  induction x with
  | nil =>
    intro y _
    cases sep with
    | nil => exact absurd rfl hsep
    | cons p ps =>
      have h1 : startsWith (p :: ps) ((p :: ps) ++ y) = true := startsWith_self_append _ _
      simp only [List.nil_append, List.cons_append] at h1 ⊢
      rw [splitOnFirst, if_pos h1]
      rw [show (p :: (ps ++ y)).drop (p :: ps).length = y from List.drop_left (p :: ps) y]
  | cons c cs ih =>
    intro y hno
    have h0 : startsWith sep (c :: (cs ++ (sep ++ y))) = false := by
      have := hno 0 (by simp)
      simpa using this
    have hrec := ih y (fun i hi => by
      have := hno (i + 1) (by simp only [List.length_cons]; omega)
      simpa using this)
    simp only [List.cons_append]
    rw [splitOnFirst, if_neg (by simp [h0]), hrec]


/-! Facts about `stripL`, `stripR` and `pyStrip`. -/

theorem stripR_eq (s : Str) : stripR s = (stripL s.reverse).reverse := rfl

theorem stripL_eq_nil_iff (s : Str) :
    stripL s = [] ↔ ∀ c ∈ s, pyIsSpace c = true :=
  List.dropWhile_eq_nil_iff

theorem stripR_eq_nil_iff (s : Str) :
    stripR s = [] ↔ ∀ c ∈ s, pyIsSpace c = true := by
  rw [stripR_eq, List.reverse_eq_nil_iff, stripL_eq_nil_iff]
  constructor
  · intro h c hc
    exact h c (List.mem_reverse.mpr hc)
  · intro h c hc
    exact h c (List.mem_reverse.mp hc)

theorem stripL_append_of_ne (x z : Str) (hx : stripL x ≠ []) :
    stripL (x ++ z) = stripL x ++ z := by
  induction x with
  | nil => exact absurd rfl hx
  | cons c cs ih =>
    by_cases hc : pyIsSpace c
    · simp only [stripL, List.cons_append, List.dropWhile_cons, hc, if_true] at hx ⊢
      exact ih hx
    · simp [stripL, List.cons_append, List.dropWhile_cons, hc]

theorem stripL_append_cons (x z : Str) (c : Char) (hc : pyIsSpace c = false) :
    stripL (x ++ c :: z) = stripL x ++ c :: z := by
  induction x with
  | nil => simp [stripL, List.dropWhile_cons, hc]
  | cons a xs ih =>
    by_cases ha : pyIsSpace a
    · simpa [stripL, List.dropWhile_cons, ha] using ih
    · simp [stripL, List.dropWhile_cons, ha]

theorem stripR_append_cons (x z : Str) (c : Char) (hc : pyIsSpace c = false) :
    stripR (x ++ c :: z) = x ++ c :: stripR z := by
  rw [stripR_eq, show (x ++ c :: z).reverse = z.reverse ++ c :: x.reverse by simp,
    stripL_append_cons _ _ _ hc, stripR_eq]
  simp

theorem stripR_append_of_ne (A y : Str) (hy : stripR y ≠ []) :
    stripR (A ++ y) = A ++ stripR y := by
  have hy' : stripL y.reverse ≠ [] := by
    intro h
    apply hy
    rw [stripR_eq, h]
    rfl
  rw [stripR_eq, List.reverse_append, stripL_append_of_ne _ _ hy', stripR_eq]
  simp

theorem stripL_head_not (s : Str) (c : Char) (t : Str) (h : stripL s = c :: t) :
    pyIsSpace c = false := by
  induction s with
  | nil => simp [stripL] at h
  | cons a as ih =>
    by_cases ha : pyIsSpace a
    · exact ih (by simpa [stripL, List.dropWhile_cons, ha] using h)
    · rw [stripL, List.dropWhile_cons, if_neg ha] at h
      cases h
      simpa using ha

theorem stripL_idem (s : Str) : stripL (stripL s) = stripL s := by
  cases h : stripL s with
  | nil => rfl
  | cons c t =>
    have hc := stripL_head_not s c t h
    simp [stripL, List.dropWhile_cons, hc]

theorem stripR_idem (s : Str) : stripR (stripR s) = stripR s := by
  simp [stripR_eq, List.reverse_reverse, stripL_idem]

theorem pyStrip_stripL (s : Str) : pyStrip (stripL s) = pyStrip s := by
  unfold pyStrip
  rw [stripL_idem]

theorem stripL_takeWhile (s : Str) : stripL (s.takeWhile pyIsSpace) = [] := by
  rw [stripL_eq_nil_iff]
  intro c hc
  exact List.mem_takeWhile_imp hc

theorem takeWhile_append_stripL (s : Str) : s.takeWhile pyIsSpace ++ stripL s = s :=
  List.takeWhile_append_dropWhile pyIsSpace s

theorem stripR_append_rest (t : Str) :
    stripR t ++ (t.reverse.takeWhile pyIsSpace).reverse = t := by
  have h := congrArg List.reverse (List.takeWhile_append_dropWhile pyIsSpace t.reverse)
  rw [List.reverse_append, List.reverse_reverse] at h
  exact h

theorem stripL_stripR_comm (s : Str) : stripL (stripR s) = stripR (stripL s) := by
  cases h : stripL s with
  | nil =>
    have hs := (stripL_eq_nil_iff s).mp h
    rw [(stripR_eq_nil_iff s).mpr hs]
    rfl
  | cons c t =>
    have hc : pyIsSpace c = false := stripL_head_not s c t h
    have hr : stripR (c :: t) = c :: stripR t := by
      simpa using stripR_append_cons [] t c hc
    have hdecomp : s = s.takeWhile pyIsSpace ++ c :: t := by
      conv_lhs => rw [← List.takeWhile_append_dropWhile pyIsSpace s]
      rw [show s.dropWhile pyIsSpace = c :: t from h]
    rw [hr]
    conv_lhs => rw [hdecomp]
    rw [stripR_append_cons _ _ _ hc, stripL_append_cons _ _ _ hc, stripL_takeWhile]
    simp

theorem pyStrip_stripR (s : Str) : pyStrip (stripR s) = pyStrip s := by
  unfold pyStrip
  rw [stripL_stripR_comm, stripR_idem]

theorem containsSub_pyStrip (sep s : Str) (h : containsSub sep (pyStrip s) = true) :
    containsSub sep s = true := by
  have h1 : containsSub sep (stripL s) = true := by
    have h2 := containsSub_append_l sep (pyStrip s)
      (((stripL s).reverse.takeWhile pyIsSpace).reverse) h
    rw [show pyStrip s ++ ((stripL s).reverse.takeWhile pyIsSpace).reverse = stripL s from
      stripR_append_rest (stripL s)] at h2
    exact h2
  have h3 := containsSub_append_r sep (s.takeWhile pyIsSpace) (stripL s) h1
  rw [takeWhile_append_stripL] at h3
  exact h3

theorem mem_of_mem_stripL (s : Str) (c : Char) (h : c ∈ stripL s) : c ∈ s := by
  induction s with
  | nil => simp [stripL] at h
  | cons a as ih =>
    by_cases ha : pyIsSpace a
    · simp only [stripL, List.dropWhile_cons, ha, if_true] at h
      exact List.mem_cons_of_mem a (ih h)
    · simpa [stripL, List.dropWhile_cons, ha] using h

theorem containsSub_single (c : Char) (s : Str) : containsSub [c] s = true ↔ c ∈ s := by
  induction s with
  | nil => simp [containsSub, startsWith]
  | cons a as ih =>
    simp [containsSub, startsWith, Bool.or_eq_true, beq_iff_eq, ih, List.mem_cons]

/-! Scaffold equations for `parse_folder_name`. -/

theorem parse_folder_name_eq_of_dash (fn a b : Str)
    (h : splitOnFirst sepDash (pyStrip fn) = some (a, b)) :
    parse_folder_name fn = (pyStrip a, pyStrip b) := by
  simp only [parse_folder_name]
  rw [h]

theorem parse_folder_name_eq_of_underscore (fn a b : Str)
    (hd : splitOnFirst sepDash (pyStrip fn) = none)
    (h : splitOnFirst ['_'] (pyStrip fn) = some (a, b)) :
    parse_folder_name fn = (pyStrip a, pyStrip b) := by
  simp only [parse_folder_name]
  rw [hd, h]

theorem parse_folder_name_eq_plain (fn : Str)
    (hd : splitOnFirst sepDash (pyStrip fn) = none)
    (hu : splitOnFirst ['_'] (pyStrip fn) = none) :
    parse_folder_name fn = (pyStrip fn, naStr) := by
  simp only [parse_folder_name]
  rw [hd, hu]

/-- C6: a folder name of the form `X - Y` — a non-blank `X` that does not
contain the separator, also not when directly followed by the separator's
first two characters, and a non-blank `Y` — parses to the pair `(X, Y)`
with surrounding whitespace stripped; a folder name containing neither
`" - "` nor `"_"` parses to the stripped whole name paired with `"N/A"`. -/
theorem claim_C6_folder_name :
    (∀ x y : Str, (¬ ∀ c ∈ x, pyIsSpace c = true) → (¬ ∀ c ∈ y, pyIsSpace c = true) →
        containsSub sepDash (x ++ [' ', '-']) = false →
        parse_folder_name (x ++ (sepDash ++ y)) = (pyStrip x, pyStrip y)) ∧
    (∀ name : Str, containsSub sepDash name = false → containsSub ['_'] name = false →
        parse_folder_name name = (pyStrip name, naStr)) := by
  constructor
  · intro x y hx hy hocc
    have hlx : stripL x ≠ [] := fun hnil => hx ((stripL_eq_nil_iff x).mp hnil)
    have hry : stripR y ≠ [] := fun hnil => hy ((stripR_eq_nil_iff y).mp hnil)
    have hclean : pyStrip (x ++ (sepDash ++ y)) = stripL x ++ (sepDash ++ stripR y) := by
      unfold pyStrip
      rw [stripL_append_of_ne x _ hlx,
        show stripL x ++ (sepDash ++ y) = (stripL x ++ sepDash) ++ y by
          rw [List.append_assoc],
        stripR_append_of_ne _ y hry, List.append_assoc]
    have hocc2 : containsSub sepDash (stripL x ++ [' ', '-']) = false := by
      by_contra hcon
      simp only [Bool.not_eq_false] at hcon
      have h1 := containsSub_append_r sepDash (x.takeWhile pyIsSpace) _ hcon
      rw [show x.takeWhile pyIsSpace ++ (stripL x ++ [' ', '-']) = x ++ [' ', '-'] by
        rw [← List.append_assoc, takeWhile_append_stripL]] at h1
      rw [h1] at hocc
      simp at hocc
    have hno := no_early_occurrence sepDash (stripL x) (stripR y)
      (by rw [show sepDash.dropLast = [' ', '-'] from rfl]; exact hocc2)
    have hsplit : splitOnFirst sepDash (pyStrip (x ++ (sepDash ++ y))) =
        some (stripL x, stripR y) := by
      rw [hclean]
      exact splitOnFirst_exact sepDash (by simp [sepDash]) (stripL x) (stripR y) hno
    rw [parse_folder_name_eq_of_dash _ _ _ hsplit, pyStrip_stripL, pyStrip_stripR]
  · intro name hd hu
    have hd2 : containsSub sepDash (pyStrip name) = false := by
      by_contra hcon
      simp only [Bool.not_eq_false] at hcon
      rw [containsSub_pyStrip _ _ hcon] at hd
      simp at hd
    have hu2 : containsSub ['_'] (pyStrip name) = false := by
      by_contra hcon
      simp only [Bool.not_eq_false] at hcon
      rw [containsSub_pyStrip _ _ hcon] at hu
      simp at hu
    exact parse_folder_name_eq_plain name
      (splitOnFirst_eq_none _ _ hd2) (splitOnFirst_eq_none _ _ hu2)

theorem claim_C6_folder_name_witness :
    (¬ ∀ c ∈ ("My Co".data), pyIsSpace c = true) ∧
    (¬ ∀ c ∈ (" 123 ".data), pyIsSpace c = true) ∧
    containsSub sepDash ("My Co".data ++ [' ', '-']) = false ∧
    parse_folder_name ("My Co".data ++ (sepDash ++ " 123 ".data)) =
      (pyStrip ("My Co".data), pyStrip (" 123 ".data)) :=
  ⟨by decide, by decide, by decide,
    claim_C6_folder_name.1 ("My Co".data) (" 123 ".data) (by decide) (by decide) (by decide)⟩

/-- C9: a folder name of the form `X_Y` whose `X` part contains no
underscore and which nowhere contains `" - "` splits on that first
underscore into `(X, Y)` with surrounding whitespace stripped — it does
not fall through to `(whole name, "N/A")`. -/
theorem claim_C9_underscore (x y : Str) (hx : ('_' : Char) ∉ x)
    (hno : containsSub sepDash (x ++ '_' :: y) = false) :
    parse_folder_name (x ++ '_' :: y) = (pyStrip x, pyStrip y) := by
  have hund : pyIsSpace '_' = false := by decide
  have hclean : pyStrip (x ++ '_' :: y) = stripL x ++ '_' :: stripR y := by
    unfold pyStrip
    rw [stripL_append_cons x y '_' hund, stripR_append_cons _ _ _ hund]
  have hcleansub : containsSub sepDash (stripL x ++ '_' :: stripR y) = false := by
    by_contra hcon
    simp only [Bool.not_eq_false] at hcon
    have h1 := containsSub_append_l sepDash _ ((y.reverse.takeWhile pyIsSpace).reverse) hcon
    rw [show (stripL x ++ '_' :: stripR y) ++ (y.reverse.takeWhile pyIsSpace).reverse
        = stripL x ++ '_' :: y by
      rw [List.append_assoc, List.cons_append, stripR_append_rest y]] at h1
    have h2 := containsSub_append_r sepDash (x.takeWhile pyIsSpace) _ h1
    rw [show x.takeWhile pyIsSpace ++ (stripL x ++ '_' :: y) = x ++ '_' :: y by
      rw [← List.append_assoc, takeWhile_append_stripL]] at h2
    rw [h2] at hno
    simp at hno
  have hxs : ('_' : Char) ∉ stripL x := fun hmem => hx (mem_of_mem_stripL x '_' hmem)
  have hnou : containsSub ['_'] (stripL x ++ (['_'] : Str).dropLast) = false := by
    rw [show (['_'] : Str).dropLast = [] from rfl, List.append_nil]
    by_contra hcon
    simp only [Bool.not_eq_false] at hcon
    exact hxs ((containsSub_single _ _).mp hcon)
  have hno' := no_early_occurrence ['_'] (stripL x) (stripR y) hnou
  have hsplitu : splitOnFirst ['_'] (stripL x ++ ('_' :: stripR y)) =
      some (stripL x, stripR y) :=
    splitOnFirst_exact ['_'] (by simp) (stripL x) (stripR y) hno'
  have hd : splitOnFirst sepDash (pyStrip (x ++ '_' :: y)) = none := by
    rw [hclean]
    exact splitOnFirst_eq_none _ _ hcleansub
  have hu : splitOnFirst ['_'] (pyStrip (x ++ '_' :: y)) = some (stripL x, stripR y) := by
    rw [hclean]
    exact hsplitu
  rw [parse_folder_name_eq_of_underscore _ _ _ hd hu, pyStrip_stripL, pyStrip_stripR]

theorem claim_C9_underscore_witness :
    (('_' : Char) ∉ ("ACME".data)) ∧
    containsSub sepDash ("ACME".data ++ '_' :: ("42".data)) = false ∧
    parse_folder_name ("ACME".data ++ '_' :: ("42".data)) =
      (pyStrip ("ACME".data), pyStrip ("42".data)) :=
  ⟨by decide, by decide, claim_C9_underscore _ _ (by decide) (by decide)⟩

/-! Facts about the retry loops. -/

theorem extract_loop_le (net : Nat → NetEvent QBody) :
    ∀ fuel i, (extract_loop net i fuel).2 ≤ fuel := by
  intro fuel
  induction fuel with
  | zero => intro i; simp [extract_loop]
  | succ f ih =>
    intro i
    have hrec := ih (i + 1)
    simp only [extract_loop]
    cases hni : net i with
    | exception =>
      simp only [bump]
      omega
    | response code body =>
      by_cases h200 : code = 200
      · cases body with
        | some qs => simp [h200]
        | none => simp [h200]
      · by_cases h429 : code = 429
        · simp [h200, h429, bump]
          omega
        · simp [h200, h429]

theorem analyze_loop_le (net : Nat → NetEvent DrillBody) :
    ∀ fuel i, (analyze_loop net i fuel).2 ≤ fuel := by
  intro fuel
  induction fuel with
  | zero => intro i; simp [analyze_loop]
  | succ f ih =>
    intro i
    have hrec := ih (i + 1)
    simp only [analyze_loop]
    cases hni : net i with
    | exception =>
      simp only [bump]
      omega
    | response code body =>
      by_cases h200 : code = 200
      · cases body with
        | some c => simp [h200]
        | none => simp [h200, bump]; omega
      · simp [h200, bump]
        omega

theorem extract_loop_all429 (net : Nat → NetEvent QBody) :
    ∀ fuel i, (∀ j, j < fuel → isStatus 429 (net (i + j)) = true) →
      extract_loop net i fuel = ([], fuel) := by
  intro fuel
  induction fuel with
  | zero => intro i _; rfl
  | succ f ih =>
    intro i h
    have h0 := h 0 (by omega)
    rw [Nat.add_zero] at h0
    cases hni : net i with
    | exception => rw [hni] at h0; simp [isStatus] at h0
    | response code body =>
      rw [hni] at h0
      have hc : code = 429 := by simpa [isStatus] using h0
      subst hc
      have hrec := ih (i + 1) (fun j hj => by
        have hs := h (j + 1) (by omega)
        rw [show i + (j + 1) = i + 1 + j by omega] at hs
        exact hs)
      simp [extract_loop, hni, hrec, bump]

theorem analyze_loop_all429 (net : Nat → NetEvent DrillBody) :
    ∀ fuel i, (∀ j, j < fuel → isStatus 429 (net (i + j)) = true) →
      analyze_loop net i fuel = (some [], fuel) := by
  intro fuel
  induction fuel with
  | zero => intro i _; rfl
  | succ f ih =>
    intro i h
    have h0 := h 0 (by omega)
    rw [Nat.add_zero] at h0
    cases hni : net i with
    | exception => rw [hni] at h0; simp [isStatus] at h0
    | response code body =>
      rw [hni] at h0
      have hc : code = 429 := by simpa [isStatus] using h0
      subst hc
      have hrec := ih (i + 1) (fun j hj => by
        have hs := h (j + 1) (by omega)
        rw [show i + (j + 1) = i + 1 + j by omega] at hs
        exact hs)
      simp [analyze_loop, hni, hrec, bump]

/-- C3: when every attempt is answered with status 429, both
chat-extraction operations sleep and retry until the 3 attempts are
exhausted and then return the empty result, and neither operation ever
issues more than 3 requests. -/
theorem claim_C3_retry_429 :
    (∀ (raw_text : Str) (net : Nat → NetEvent QBody),
        ¬(raw_text = [] ∨ (pyStrip raw_text).length < 5) →
        (∀ j, j < 3 → isStatus 429 (net j) = true) →
        extract_questions raw_text net = ([], 3)) ∧
    (∀ (raw_text : Str) (net : Nat → NetEvent QBody),
        (extract_questions raw_text net).2 ≤ 3) ∧
    (∀ (key : Str) (net : Nat → NetEvent DrillBody),
        key.isEmpty = false →
        (∀ j, j < 3 → isStatus 429 (net j) = true) →
        analyze_with_mistral key net = (some [], 3)) ∧
    (∀ (key : Str) (net : Nat → NetEvent DrillBody),
        (analyze_with_mistral key net).2 ≤ 3) := by
  refine ⟨?_, ?_, ?_, ?_⟩
  · intro raw net hg h
    unfold extract_questions
    rw [if_neg hg]
    exact extract_loop_all429 net 3 0 (fun j hj => by rw [Nat.zero_add]; exact h j hj)
  · intro raw net
    unfold extract_questions
    split
    · simp
    · exact extract_loop_le net 3 0
  · intro key net hk h
    unfold analyze_with_mistral
    rw [if_neg (by simp [hk])]
    exact analyze_loop_all429 net 3 0 (fun j hj => by rw [Nat.zero_add]; exact h j hj)
  · intro key net
    unfold analyze_with_mistral
    split
    · simp
    · exact analyze_loop_le net 3 0

/-- A network behaviour answering every request with status 429, zip flow. -/
def net429z : Nat → NetEvent QBody := fun _ => .response 429 none

/-- A network behaviour answering every request with status 429, CSV flow. -/
def net429d : Nat → NetEvent DrillBody := fun _ => .response 429 none

theorem claim_C3_retry_429_witness :
    (¬(("hello".data : Str) = [] ∨ (pyStrip ("hello".data)).length < 5)) ∧
    (∀ j, j < 3 → isStatus 429 (net429z j) = true) ∧
    extract_questions ("hello".data) net429z = ([], 3) ∧
    ((['k'] : Str).isEmpty = false) ∧
    (∀ j, j < 3 → isStatus 429 (net429d j) = true) ∧
    analyze_with_mistral ['k'] net429d = (some [], 3) :=
  ⟨by decide, by decide, claim_C3_retry_429.1 _ _ (by decide) (by decide), by decide,
    by decide, claim_C3_retry_429.2.2.1 _ _ (by decide) (by decide)⟩

/-- C4 (amended): in the zip flow a response whose status is neither 200
nor 429 makes the retry loop of `extract_questions` return the empty list
at once, after exactly one request; but a raised exception there sleeps
and retries inside the 3-attempt budget, and in the CSV flow any non-200
response — 429 or not — as well as any exception sleeps and retries, the
empty sentinel appearing only once the 3 attempts are exhausted. -/
theorem claim_C4_error_handling :
    (∀ (net : Nat → NetEvent QBody) (code : Nat) (b : QBody),
        code ≠ 200 → code ≠ 429 → net 0 = .response code b →
        extract_loop net 0 3 = ([], 1)) ∧
    (∀ (net : Nat → NetEvent QBody) (qs : List QItem),
        net 0 = .exception → net 1 = .response 200 (some qs) →
        extract_loop net 0 3 = (qs, 2)) ∧
    (∀ (net : Nat → NetEvent DrillBody) (code : Nat) (b : DrillBody) (c : DrillContent),
        code ≠ 200 → net 0 = .response code b → net 1 = .response 200 (some c) →
        analyze_loop net 0 3 = (c, 2)) ∧
    (∀ (net : Nat → NetEvent DrillBody) (c : DrillContent),
        net 0 = .exception → net 1 = .response 200 (some c) →
        analyze_loop net 0 3 = (c, 2)) := by
  refine ⟨?_, ?_, ?_, ?_⟩
  · intro net code b h200 h429 h0
    simp [extract_loop, h0, h200, h429]
  · intro net qs h0 h1
    simp [extract_loop, h0, h1, bump]
  · intro net code b c h200 h0 h1
    simp [analyze_loop, h0, h1, h200, bump]
  · intro net c h0 h1
    simp [analyze_loop, h0, h1, bump]

/-- A zip-flow network behaviour: every response has status 500. -/
def cnet500z : Nat → NetEvent QBody := fun _ => .response 500 none

/-- A zip-flow network behaviour: first call raises, second succeeds. -/
def cnetExnZ : Nat → NetEvent QBody := fun i =>
  if i = 0 then .exception else .response 200 (some [⟨none, none, none, none⟩])

/-- A CSV-flow network behaviour: first response has status 500, the
second succeeds with one extracted item. -/
def cnet500d : Nat → NetEvent DrillBody := fun i =>
  if i = 0 then .response 500 none
  else .response 200 (some (some [⟨none, none, none, none, none⟩]))

/-- A CSV-flow network behaviour: first call raises, second succeeds. -/
def cnetExnD : Nat → NetEvent DrillBody := fun i =>
  if i = 0 then .exception else .response 200 (some (some []))

/-- C4 is false as stated: in the CSV flow a response with status 500 —
neither 200 nor 429 — does not make `analyze_with_mistral` return the
empty result immediately; the loop sleeps, retries, and returns the
second attempt's content after two requests. -/
theorem claim_C4_cex :
    analyze_loop cnet500d 0 3 = (some [⟨none, none, none, none, none⟩], 2) ∧
    analyze_loop cnet500d 0 3 ≠ (some [], 1) := by
  constructor
  · decide
  · decide

theorem claim_C4_error_handling_witness :
    ((500 : Nat) ≠ 200) ∧ ((500 : Nat) ≠ 429) ∧
    cnet500z 0 = .response 500 none ∧
    extract_loop cnet500z 0 3 = ([], 1) ∧
    cnetExnZ 0 = .exception ∧
    cnetExnZ 1 = .response 200 (some [⟨none, none, none, none⟩]) ∧
    extract_loop cnetExnZ 0 3 = ([⟨none, none, none, none⟩], 2) ∧
    cnet500d 0 = .response 500 none ∧
    cnet500d 1 = .response 200 (some (some [⟨none, none, none, none, none⟩])) ∧
    analyze_loop cnet500d 0 3 = (some [⟨none, none, none, none, none⟩], 2) ∧
    cnetExnD 0 = .exception ∧
    cnetExnD 1 = .response 200 (some (some [])) ∧
    analyze_loop cnetExnD 0 3 = (some [], 2) :=
  ⟨by decide, by decide, rfl,
    claim_C4_error_handling.1 cnet500z 500 none (by decide) (by decide) rfl,
    rfl, rfl,
    claim_C4_error_handling.2.1 cnetExnZ [⟨none, none, none, none⟩] rfl rfl,
    rfl, rfl,
    claim_C4_error_handling.2.2.1 cnet500d 500 none
      (some [⟨none, none, none, none, none⟩]) (by decide) rfl rfl,
    rfl, rfl,
    claim_C4_error_handling.2.2.2 cnetExnD (some []) rfl rfl⟩

/-- C5 (amended): in the zip flow, empty or whitespace-only OCR text is
caught by the `len(raw_text.strip()) < 5` guard and `extract_questions`
returns zero rows with zero requests, for every network behaviour; in
the CSV flow the filter is length- and keyword-based, not
whitespace-based: a row all of whose round texts have length at most 3
or lower-case to a null-like keyword yields zero rows with zero
requests (whitespace-only text of length at least 4 is not filtered —
see the counterexample). -/
theorem claim_C5_empty_input :
    (∀ (raw_text : Str) (net : Nat → NetEvent QBody),
        (∀ c ∈ raw_text, pyIsSpace c = true) →
        extract_questions raw_text net = ([], 0)) ∧
    (∀ (row : DrillRow) (key : Str) (net : Nat → NetEvent DrillBody),
        (∀ p ∈ rounds_data row, p.2.length ≤ 3 ∨ pyLower p.2 ∈ null_words) →
        process_drilldown_row row key net = ([], 0)) := by
  constructor
  · intro raw net h
    have hnil : pyStrip raw = [] := by
      unfold pyStrip
      rw [(stripL_eq_nil_iff raw).mpr h]
      rfl
    unfold extract_questions
    rw [if_pos (Or.inr (by rw [hnil]; simp))]
  · intro row key net h
    have hempty : clean_rounds row = [] := by
      rw [clean_rounds, List.filter_eq_nil_iff]
      intro p hp
      rcases h p hp with hlen | hmem
      · simp only [keep_round, Bool.and_eq_true, decide_eq_true_eq, not_and]
        intro hgt
        exact absurd hgt (by omega)
      · simp only [keep_round, Bool.and_eq_true, decide_eq_true_eq, not_and,
          Bool.not_eq_true, Bool.not_eq_false]
        intro hgt
        simpa using hmem
    simp only [process_drilldown_row, hempty]
    simp

/-- A CSV row whose only present round text is four spaces. -/
def wsRow : DrillRow :=
  ⟨none, none, none, some [' ', ' ', ' ', ' '], none, none, none, none, none⟩

/-- A CSV-flow network behaviour answering at once with one item. -/
def okNetD : Nat → NetEvent DrillBody :=
  fun _ => .response 200 (some (some [⟨none, none, none, none, none⟩]))

/-- C5 is false as stated for the CSV flow: a whitespace-only round text
of length 4 passes the `len(v) > 3` filter, so `process_drilldown_row`
issues a network request and returns the rows the model's reply parses
to, rather than zero rows with no request. -/
theorem claim_C5_cex :
    (∀ c ∈ ([' ', ' ', ' ', ' '] : Str), pyIsSpace c = true) ∧
    (process_drilldown_row wsRow ['k'] okNetD).2 = 1 ∧
    (process_drilldown_row wsRow ['k'] okNetD).1 ≠ [] := by
  refine ⟨by decide, by decide, by decide⟩

/-- A CSV row whose round texts are all short or null-like. -/
def shortRow : DrillRow :=
  ⟨some ("d1".data), none, none, some ("no".data), some ("nan".data),
    none, none, none, none⟩

theorem claim_C5_empty_input_witness :
    (∀ c ∈ ("   ".data : Str), pyIsSpace c = true) ∧
    extract_questions ("   ".data) cnet500z = ([], 0) ∧
    (∀ p ∈ rounds_data shortRow, p.2.length ≤ 3 ∨ pyLower p.2 ∈ null_words) ∧
    process_drilldown_row shortRow ['k'] okNetD = ([], 0) :=
  ⟨by decide, claim_C5_empty_input.1 _ cnet500z (by decide), by decide,
    claim_C5_empty_input.2 shortRow ['k'] okNetD (by decide)⟩

/-! Facts about the collection loop. -/

theorem run_dispatch_results (ds : List (List OutRow)) :
    ∀ s : DispatchState, (ds.foldl dispatch_step s).all_results = s.all_results ++ ds.flatten := by
  induction ds with
  | nil => intro s; simp
  | cons d rest ih =>
    intro s
    rw [List.foldl_cons, ih]
    by_cases hd : d.isEmpty
    · have hnil : d = [] := List.isEmpty_iff.mp hd
      subst hnil
      simp [dispatch_step]
    · simp [dispatch_step, hd]

theorem run_dispatch_count (ds : List (List OutRow)) :
    ∀ s : DispatchState, (ds.foldl dispatch_step s).completed_count = s.completed_count + ds.length := by
  induction ds with
  | nil => intro s; simp
  | cons d rest ih =>
    intro s
    rw [List.foldl_cons, ih]
    simp [dispatch_step]
    omega

theorem dispatch_reports_eq (ds : List (List OutRow)) :
    ∀ s : DispatchState, dispatch_reports s ds = List.range' (s.completed_count + 1) ds.length := by
  induction ds with
  | nil => intro s; rfl
  | cons d rest ih =>
    intro s
    show (dispatch_step s d).completed_count :: dispatch_reports (dispatch_step s d) rest =
      List.range' (s.completed_count + 1) (rest.length + 1)
    rw [ih]
    rfl

theorem chain_succ_range (n : Nat) :
    ∀ s, List.Chain' (fun a b => b = a + 1) (List.range' s n) := by
  induction n with
  | zero => intro s; simp
  | succ m ih =>
    intro s
    cases m with
    | zero => simp
    | succ k =>
      show List.Chain' (fun a b => b = a + 1) (s :: (s + 1) :: List.range' (s + 2) k)
      rw [List.chain'_cons]
      exact ⟨rfl, ih (s + 1)⟩

/-- C1: whatever permutation of the per-unit results the `as_completed`
loop observes, the aggregate it accumulates is — as a multiset — exactly
the concatenation of all units' rows; a unit whose extraction failed or
produced nothing is an empty list and contributes zero rows, and the loop
processes every completed unit regardless of the others' failures. -/
theorem claim_C1_dispatch_union :
    ∀ (units : List (DrillRow × Str × (Nat → NetEvent DrillBody)))
      (completion : List (List OutRow)),
      completion.Perm (units.map unit_result) →
      (run_dispatch completion).all_results.Perm (units.map unit_result).flatten ∧
      ∀ (pre post : List (List OutRow)),
        (run_dispatch (pre ++ [] :: post)).all_results =
          (run_dispatch (pre ++ post)).all_results := by
  intro units completion hperm
  constructor
  · have h1 : (run_dispatch completion).all_results = completion.flatten := by
      unfold run_dispatch
      rw [run_dispatch_results]
      rfl
    rw [h1]
    exact hperm.flatten
  · intro pre post
    unfold run_dispatch
    rw [run_dispatch_results, run_dispatch_results]
    simp

theorem claim_C1_dispatch_union_witness :
    (([unit_result (wsRow, ['k'], okNetD)]).Perm
      (([(wsRow, ['k'], okNetD)]).map unit_result)) ∧
    ((run_dispatch [unit_result (wsRow, ['k'], okNetD)]).all_results.Perm
      (([(wsRow, ['k'], okNetD)]).map unit_result).flatten ∧
      ∀ (pre post : List (List OutRow)),
        (run_dispatch (pre ++ [] :: post)).all_results =
          (run_dispatch (pre ++ post)).all_results) :=
  ⟨by simp, claim_C1_dispatch_union [(wsRow, ['k'], okNetD)] _ (by simp)⟩

/-- C2: over one dispatcher run the reported completed-count is exactly
1, 2, …, N — it advances by one per completed unit and never decreases —
and the loop finishes only once its fold has consumed all N per-unit
results, the final count being N. -/
theorem claim_C2_progress :
    ∀ ds : List (List OutRow),
      dispatch_reports ⟨[], 0⟩ ds = List.range' 1 ds.length ∧
      List.Chain' (fun a b => b = a + 1) (dispatch_reports ⟨[], 0⟩ ds) ∧
      (run_dispatch ds).completed_count = ds.length := by
  intro ds
  have h1 : dispatch_reports ⟨[], 0⟩ ds = List.range' 1 ds.length :=
    dispatch_reports_eq ds ⟨[], 0⟩
  refine ⟨h1, ?_, ?_⟩
  · rw [h1]
    exact chain_succ_range _ _
  · unfold run_dispatch
    rw [run_dispatch_count]
    simp

/-! Facts about credential selection. -/

theorem submissions_go_idx (rows : List DrillRow) :
    ∀ (keys : List Str) (hk : keys ≠ []) (j i : Nat) (hi : i < rows.length),
      (submissions_go keys hk j rows)[i]? =
        some (rows.get ⟨i, hi⟩,
          keys.get ⟨(j + i) % keys.length, Nat.mod_lt _ (List.length_pos.mpr hk)⟩) := by
  induction rows with
  | nil =>
    intro keys hk j i hi
    simp at hi
  | cons r rest ih =>
    intro keys hk j i hi
    have hstep : submissions_go keys hk j (r :: rest) =
        (r, keys.get ⟨j % keys.length, Nat.mod_lt _ (List.length_pos.mpr hk)⟩) ::
          submissions_go keys hk (j + 1) rest := rfl
    cases i with
    | zero =>
      rw [hstep, List.getElem?_cons_zero]
      rfl
    | succ n =>
      rw [hstep, List.getElem?_cons_succ, ih keys hk (j + 1) n (by simpa using hi)]
      have hfin : (⟨(j + 1 + n) % keys.length,
            Nat.mod_lt _ (List.length_pos.mpr hk)⟩ : Fin keys.length) =
          ⟨(j + (n + 1)) % keys.length, Nat.mod_lt _ (List.length_pos.mpr hk)⟩ := by
        apply Fin.ext
        show (j + 1 + n) % keys.length = (j + (n + 1)) % keys.length
        rw [show j + 1 + n = j + (n + 1) from by omega]
      rw [hfin]
      rfl

/-- C7 (amended): in the CSV flow the dispatcher deterministically pairs
row `i` with `keys[i % len(keys)]`, so two runs over the same rows and
keys submit identical (row, credential) pairs; in the zip flow, however,
`get_api_key` selects `keys[int(time.time()) % len(keys)]` — a function
of the wall-clock second alone, so the credential depends only on the
time of the call, not on any unit counter (see the counterexample for
the resulting run-dependence). -/
theorem claim_C7_key_selection :
    (∀ (keys : List Str) (hk : keys ≠ []) (rows : List DrillRow) (i : Nat)
        (hi : i < rows.length),
        (drilldown_submissions keys hk rows)[i]? =
          some (rows.get ⟨i, hi⟩,
            keys.get ⟨i % keys.length, Nat.mod_lt _ (List.length_pos.mpr hk)⟩)) ∧
    (∀ (keys : List Str) (t1 t2 : Nat), t1 % keys.length = t2 % keys.length →
        get_api_key keys t1 = get_api_key keys t2) := by
  constructor
  · intro keys hk rows i hi
    have h := submissions_go_idx rows keys hk 0 i hi
    simpa using h
  · intro keys t1 t2 h
    unfold get_api_key
    by_cases hk : keys = []
    · simp [hk]
    · rw [dif_neg hk, dif_neg hk]
      congr 1
      exact Fin.ext h

/-- C7 is false as stated for the zip flow: with keys `["a", "b"]` and
the same unit, `get_api_key` returns `"a"` when the call happens at
second 0 and `"b"` at second 1 — the selection is a function of the
wall-clock time, not a deterministic counter over units, so two runs
over the same unit sequence need not select the same credentials. -/
theorem claim_C7_cex :
    get_api_key [['a'], ['b']] 0 = ['a'] ∧
    get_api_key [['a'], ['b']] 1 = ['b'] ∧
    (['a'] : Str) ≠ ['b'] := by
  refine ⟨by decide, by decide, by decide⟩

theorem claim_C7_key_selection_witness :
    (([['a'], ['b']] : List Str) ≠ []) ∧
    (0 < ([wsRow, wsRow, wsRow] : List DrillRow).length) ∧
    (drilldown_submissions [['a'], ['b']] (by decide) [wsRow, wsRow, wsRow])[2]? =
      some (([wsRow, wsRow, wsRow] : List DrillRow).get ⟨2, by decide⟩,
        ([['a'], ['b']] : List Str).get ⟨2 % 2, by decide⟩) ∧
    ((0 : Nat) % 2 = (4 : Nat) % 2) ∧
    get_api_key [['a'], ['b']] 0 = get_api_key [['a'], ['b']] 4 :=
  ⟨by decide, by decide,
    claim_C7_key_selection.1 [['a'], ['b']] (by decide) [wsRow, wsRow, wsRow] 2 (by decide),
    by decide,
    claim_C7_key_selection.2 [['a'], ['b']] 0 4 (by decide)⟩

/-- C8: in both flows every key missing from an extracted item falls back
to its fixed placeholder — zip flow: category to `"Uncategorized"`,
question text to `""`, difficulty to `"Unknown"`, has-image to `"No"`
(so the image reference is empty); CSV flow: round to `"Unknown"`,
question to `""`, type to `"General"`, tech stack to `"General"`,
difficulty to `"Medium"` — while a present value is copied into the row
unchanged, with no further validation of its contents. -/
theorem claim_C8_defaults :
    (∀ (cn jid fs fn : Str) (o2 o3 o4 : Option Str),
        (build_zip_row cn jid fs fn ⟨none, o2, o3, o4⟩).tech_stack =
          "Uncategorized".data) ∧
    (∀ (cn jid fs fn v : Str) (o2 o3 o4 : Option Str),
        (build_zip_row cn jid fs fn ⟨some v, o2, o3, o4⟩).tech_stack = v) ∧
    (∀ (cn jid fs fn : Str) (o1 o3 o4 : Option Str),
        (build_zip_row cn jid fs fn ⟨o1, none, o3, o4⟩).question = []) ∧
    (∀ (cn jid fs fn v : Str) (o1 o3 o4 : Option Str),
        (build_zip_row cn jid fs fn ⟨o1, some v, o3, o4⟩).question = v) ∧
    (∀ (cn jid fs fn : Str) (o1 o2 o4 : Option Str),
        (build_zip_row cn jid fs fn ⟨o1, o2, none, o4⟩).difficulty =
          "Unknown".data) ∧
    (∀ (cn jid fs fn v : Str) (o1 o2 o4 : Option Str),
        (build_zip_row cn jid fs fn ⟨o1, o2, some v, o4⟩).difficulty = v) ∧
    (∀ (cn jid fs fn : Str) (o1 o2 o3 : Option Str),
        (build_zip_row cn jid fs fn ⟨o1, o2, o3, none⟩).image_reference =
          (build_zip_row cn jid fs fn ⟨o1, o2, o3, some ("No".data)⟩).image_reference) ∧
    (∀ (cn jid fs fn : Str) (o1 o2 o3 : Option Str),
        (build_zip_row cn jid fs fn ⟨o1, o2, o3, none⟩).image_reference = []) ∧
    (∀ (dv uid jid : Str) (o2 o3 o4 o5 : Option Str),
        (build_drill_row dv uid jid ⟨none, o2, o3, o4, o5⟩).interview_round =
          "Unknown".data) ∧
    (∀ (dv uid jid v : Str) (o2 o3 o4 o5 : Option Str),
        (build_drill_row dv uid jid ⟨some v, o2, o3, o4, o5⟩).interview_round = v) ∧
    (∀ (dv uid jid : Str) (o1 o3 o4 o5 : Option Str),
        (build_drill_row dv uid jid ⟨o1, none, o3, o4, o5⟩).question_text = []) ∧
    (∀ (dv uid jid v : Str) (o1 o3 o4 o5 : Option Str),
        (build_drill_row dv uid jid ⟨o1, some v, o3, o4, o5⟩).question_text = v) ∧
    (∀ (dv uid jid : Str) (o1 o2 o4 o5 : Option Str),
        (build_drill_row dv uid jid ⟨o1, o2, none, o4, o5⟩).question_type =
          "General".data) ∧
    (∀ (dv uid jid v : Str) (o1 o2 o4 o5 : Option Str),
        (build_drill_row dv uid jid ⟨o1, o2, some v, o4, o5⟩).question_type = v) ∧
    (∀ (dv uid jid : Str) (o1 o2 o3 o5 : Option Str),
        (build_drill_row dv uid jid ⟨o1, o2, o3, none, o5⟩).tech_stack =
          "General".data) ∧
    (∀ (dv uid jid v : Str) (o1 o2 o3 o5 : Option Str),
        (build_drill_row dv uid jid ⟨o1, o2, o3, some v, o5⟩).tech_stack = v) ∧
    (∀ (dv uid jid : Str) (o1 o2 o3 o4 : Option Str),
        (build_drill_row dv uid jid ⟨o1, o2, o3, o4, none⟩).difficulty_level =
          "Medium".data) ∧
    (∀ (dv uid jid v : Str) (o1 o2 o3 o4 : Option Str),
        (build_drill_row dv uid jid ⟨o1, o2, o3, o4, some v⟩).difficulty_level = v) := by
  refine ⟨?_, ?_, ?_, ?_, ?_, ?_, ?_, ?_, ?_, ?_, ?_, ?_, ?_, ?_, ?_, ?_, ?_, ?_⟩
  all_goals intros
  all_goals rfl

/-- C10: every output row the CSV flow produces carries the constant
string `"Covered"` in its `Curriculum Coverage` field, whatever the input
row and the model's reply. -/
theorem claim_C10_covered :
    ∀ (row : DrillRow) (key : Str) (net : Nat → NetEvent DrillBody),
      ((process_drilldown_row row key net).1.all
        (fun r => r.curriculum_coverage == "Covered".data)) = true := by
  intro row key net
  simp only [process_drilldown_row]
  by_cases hc : (clean_rounds row).isEmpty
  · simp [hc]
  · simp only [hc, Bool.false_eq_true, if_false]
    cases hres : (analyze_with_mistral key net).1 with
    | none => simp
    | some items =>
      simp only [List.all_eq_true]
      intro r hr
      rcases List.mem_map.mp hr with ⟨item, _, rfl⟩
      simp [build_drill_row]
